import Mathlib

/-!
Verification of the DNF engine and site brute router of
nextpnr-fpga-interchange-site-preprocessor.

The definitions below are a shallow embedding of the Rust source:
  - `src/logic_formula/mod.rs`  (terms, cubes, formulas and their operations)
  - `src/router/site_brute_router.rs`  (the port-to-port BFS router and the
    batch orchestrators)
  - `src/common.rs`  (`split_range_nicely`)
Variable identifiers (`Id`, instantiated with `ConstrainingElement::Port(u32)`
in the router) are modelled as `Nat`.  Rust `Vec` becomes `List`; functions
whose Rust originals are loops without a structural termination argument take
an explicit fuel parameter and return `Option`.
-/

namespace NISP

/-- Terms of the DNF formulas, from `enum FormulaTerm` in
`src/logic_formula/mod.rs`.  Variable identifiers are `Nat`. -/
inductive FormulaTerm where
  | Var : Nat → FormulaTerm
  | NegVar : Nat → FormulaTerm
  | True : FormulaTerm
  | False : FormulaTerm
deriving DecidableEq, Repr

/-- Mirror of Rust `Ordering`. -/
inductive ROrdering where
  | Less | Equal | Greater
deriving DecidableEq, Repr

/-- `FormulaTerm::neg_eq`: checks if a term is the negation of the other. -/
def neg_eq : FormulaTerm → FormulaTerm → Bool
  | .Var a, .NegVar b => a == b
  | .NegVar a, .Var b => a == b
  | .True, .False => true
  | .False, .True => true
  | _, _ => false

/-- Mirror of `Ord::cmp` on `Nat` (`a.cmp(b)` in Rust). -/
def nat_cmp (a b : Nat) : ROrdering :=
  if a < b then .Less else if a = b then .Equal else .Greater

/-- `FormulaTerm::partial_cmp` from the source, arm for arm, with its match
arms in the original order.  Note the arm `(True, _) => Equal`. -/
def term_cmp : FormulaTerm → FormulaTerm → ROrdering
  | .False, .False => .Equal
  | .False, _ => .Less
  | _, .False => .Greater
  | .True, .True => .Equal
  | .True, _ => .Equal
  | _, .True => .Less
  | s, o =>
    let a := match s with | .Var a => a | .NegVar a => a | _ => 0
    let b := match o with | .Var b => b | .NegVar b => b | _ => 0
    match nat_cmp a b with
    | .Equal =>
      match s, o with
      | .Var _, .NegVar _ => .Less
      | .NegVar _, .Var _ => .Greater
      | _, _ => .Equal
    | o => o

/-- Rust `<` on terms: `partial_cmp` returning `Less`. -/
def term_lt (a b : FormulaTerm) : Bool := term_cmp a b == .Less

/-- A conjunction group ("cube"), from `struct DNFCube`. -/
structure DNFCube where
  terms : List FormulaTerm
deriving DecidableEq, Repr

/-- `DNFCube::is_true_const`: every term is `True` (includes the empty cube). -/
def DNFCube.is_true_const (c : DNFCube) : Bool :=
  c.terms.all (fun t => t == .True)

/-- `DNFCube::is_false_const`: the cube contains `False`. -/
def DNFCube.is_false_const (c : DNFCube) : Bool :=
  c.terms.contains .False

/-- The scanning loop of `DNFCube::add_term`; `none` signals the
complementary-term collapse to `[False]`. -/
def add_term_go (term : FormulaTerm) : List FormulaTerm → Option (List FormulaTerm)
  | [] => some [term]
  | t :: ts =>
    if term_lt term t then some (term :: t :: ts)
    else if term == t then some (t :: ts)
    else if neg_eq term t then none
    else (add_term_go term ts).map (t :: ·)

/-- `DNFCube::add_term`: sorted insert, silent on duplicate, collapse of the
whole cube to `[False]` when a complementary term is present. -/
def DNFCube.add_term (c : DNFCube) (term : FormulaTerm) : DNFCube :=
  match add_term_go term c.terms with
  | some l => ⟨l⟩
  | none => ⟨[.False]⟩

/-- `DNFCube::is_subcube`: length test plus a pointwise zip comparison. -/
def DNFCube.is_subcube (self other : DNFCube) : Bool :=
  if other.terms.length > self.terms.length then false
  else ((self.terms.zip other.terms).find? (fun p => term_lt p.2 p.1)).isNone

/-- Size of a pending yield, used only for the termination measure of the
reduction state machine. -/
def yLen : Option FormulaTerm → Nat
  | some _ => 1
  | none => 0

/-- Result of the reduction state machine in
`DNFCube::try_to_reduce_disjunction`: the two early returns and the
`break 'fsm` outcome carrying the accumulated reduced prefix. -/
inductive ReduceRes where
  | retOther : ReduceRes
  | retSelf : ReduceRes
  | finished : Bool → List FormulaTerm → ReduceRes
deriving DecidableEq, Repr

/-- The `'fsm` loop of `DNFCube::try_to_reduce_disjunction`, one recursive
call per iteration.  `myY`/`oY` are `my_yield`/`others_yield`, `myR`/`oR` the
unconsumed rests of the two iterators, `lsm`/`lso` the two
`less_strict_than_*` flags, `acc` the cube under construction.  The
`(True, True)` arm reproduces the source exactly: its `Move` action for the
right side refills `others_yield` from the LEFT iterator
(`others_yield = my_it.next()`, line 391 of `src/logic_formula/mod.rs`). -/
def reduce_go (myY : Option FormulaTerm) (myR : List FormulaTerm)
    (oY : Option FormulaTerm) (oR : List FormulaTerm)
    (lsm lso : Bool) (acc : List FormulaTerm) : ReduceRes :=
  match myY, oY with
  | some .False, _ => .retOther
  | _, some .False => .retSelf
  | some .True, some .True =>
    match myR with
    | [] => reduce_go none [] none oR lsm lso (acc ++ [.True])
    | [a] => reduce_go (some a) [] none oR lsm lso (acc ++ [.True])
    | a :: b :: r => reduce_go (some a) r (some b) oR lsm lso (acc ++ [.True])
  | some (.Var x1), some (.Var x2) =>
    match nat_cmp x1 x2 with
    | .Equal =>
      match myR, oR with
      | [], [] => reduce_go none [] none [] lsm lso (acc ++ [.Var x1])
      | [], b :: s => reduce_go none [] (some b) s lsm lso (acc ++ [.Var x1])
      | a :: r, [] => reduce_go (some a) r none [] lsm lso (acc ++ [.Var x1])
      | a :: r, b :: s => reduce_go (some a) r (some b) s lsm lso (acc ++ [.Var x1])
    | .Less =>
      if !lso then
        match myR with
        | [] => reduce_go none [] (some (.Var x2)) oR true lso acc
        | a :: r => reduce_go (some a) r (some (.Var x2)) oR true lso acc
      else .finished false acc
    | .Greater =>
      if !lsm then
        match oR with
        | [] => reduce_go (some (.Var x1)) myR none [] lsm true acc
        | b :: s => reduce_go (some (.Var x1)) myR (some b) s lsm true acc
      else .finished false acc
  | some (.NegVar x1), some (.NegVar x2) =>
    match nat_cmp x1 x2 with
    | .Equal =>
      match myR, oR with
      | [], [] => reduce_go none [] none [] lsm lso (acc ++ [.NegVar x1])
      | [], b :: s => reduce_go none [] (some b) s lsm lso (acc ++ [.NegVar x1])
      | a :: r, [] => reduce_go (some a) r none [] lsm lso (acc ++ [.NegVar x1])
      | a :: r, b :: s => reduce_go (some a) r (some b) s lsm lso (acc ++ [.NegVar x1])
    | .Less =>
      if !lso then
        match myR with
        | [] => reduce_go none [] (some (.NegVar x2)) oR true lso acc
        | a :: r => reduce_go (some a) r (some (.NegVar x2)) oR true lso acc
      else .finished false acc
    | .Greater =>
      if !lsm then
        match oR with
        | [] => reduce_go (some (.NegVar x1)) myR none [] lsm true acc
        | b :: s => reduce_go (some (.NegVar x1)) myR (some b) s lsm true acc
      else .finished false acc
  | some (.Var x), some (.NegVar y) =>
    match nat_cmp x y with
    | .Equal =>
      if !(lsm || lso) then
        match myR, oR with
        | [], [] => reduce_go none [] none [] true true acc
        | [], b :: s => reduce_go none [] (some b) s true true acc
        | a :: r, [] => reduce_go (some a) r none [] true true acc
        | a :: r, b :: s => reduce_go (some a) r (some b) s true true acc
      else .finished false acc
    | .Less =>
      if !(lsm || lso) then
        match myR with
        | [] => reduce_go none [] (some (.NegVar y)) oR true lso acc
        | a :: r => reduce_go (some a) r (some (.NegVar y)) oR true lso acc
      else .finished false acc
    | .Greater =>
      if !(lsm || lso) then
        match oR with
        | [] => reduce_go (some (.Var x)) myR none [] lsm true acc
        | b :: s => reduce_go (some (.Var x)) myR (some b) s lsm true acc
      else .finished false acc
  | some (.NegVar x), some (.Var y) =>
    match nat_cmp x y with
    | .Equal =>
      if !(lsm || lso) then
        match myR, oR with
        | [], [] => reduce_go none [] none [] true true acc
        | [], b :: s => reduce_go none [] (some b) s true true acc
        | a :: r, [] => reduce_go (some a) r none [] true true acc
        | a :: r, b :: s => reduce_go (some a) r (some b) s true true acc
      else .finished false acc
    | .Less =>
      if !(lsm || lso) then
        match myR with
        | [] => reduce_go none [] (some (.Var y)) oR true lso acc
        | a :: r => reduce_go (some a) r (some (.Var y)) oR true lso acc
      else .finished false acc
    | .Greater =>
      if !(lsm || lso) then
        match oR with
        | [] => reduce_go (some (.NegVar x)) myR none [] lsm true acc
        | b :: s => reduce_go (some (.NegVar x)) myR (some b) s lsm true acc
      else .finished false acc
  | some _, none => .finished (!lsm || lso) acc
  | some _, some .True => .finished (!lsm || lso) acc
  | none, some _ => .finished (!lsm || lso) acc
  | some .True, some _ => .finished (!lsm || lso) acc
  | none, none => .finished true acc
termination_by yLen myY + myR.length + yLen oY + oR.length
decreasing_by all_goals simp [yLen] <;> omega

/-- `DNFCube::try_to_reduce_disjunction` from the source: attempts to reduce
the disjunction of two cubes into a single cube. -/
def DNFCube.try_to_reduce_disjunction (self other : DNFCube) : Option DNFCube :=
  let (myY, myR) : Option FormulaTerm × List FormulaTerm :=
    match self.terms with | [] => (none, []) | a :: r => (some a, r)
  let (oY, oR) : Option FormulaTerm × List FormulaTerm :=
    match other.terms with | [] => (none, []) | b :: s => (some b, s)
  match reduce_go myY myR oY oR false false [] with
  | .retOther => some other
  | .retSelf => some self
  | .finished true acc => some ⟨acc⟩
  | .finished false _ => none

/-- A DNF formula, from `struct DNFForm`: an ordered list of cubes,
semantically a disjunction (the empty formula denotes false). -/
structure DNFForm where
  cubes : List DNFCube
deriving DecidableEq, Repr

/-- `DNFForm::new()`. -/
def DNFForm.new : DNFForm := ⟨[]⟩

/-- `DNFForm::is_subformula_of`: every cube of `self` must be a subcube of
some cube of `other`. -/
def DNFForm.is_subformula_of (self other : DNFForm) : Bool :=
  self.cubes.all (fun c => other.cubes.any (fun c2 => c.is_subcube c2))

/-- `DNFForm::num_cubes`. -/
def DNFForm.num_cubes (f : DNFForm) : Nat := f.cubes.length

/-- `impl PartialEq for DNFForm`: forward containment, and backward
containment only when the cube counts differ. -/
def DNFForm.eqForm (self other : DNFForm) : Bool :=
  self.is_subformula_of other
    && (self.cubes.length == other.cubes.length || other.is_subformula_of self)

/-- `DNFForm::add_cube`: unconditional append. -/
def DNFForm.add_cube (f : DNFForm) (cube : DNFCube) : DNFForm :=
  ⟨f.cubes ++ [cube]⟩

/-- `DNFForm::conjunct_term`: add the term to every cube. -/
def DNFForm.conjunct_term (f : DNFForm) (term : FormulaTerm) : DNFForm :=
  ⟨f.cubes.map (fun c => c.add_term term)⟩

/-- `DNFForm::disjunct`: fold the other formula's cubes into `self` via
`add_cube`. -/
def DNFForm.disjunct (f other : DNFForm) : DNFForm :=
  other.cubes.foldl (fun me c => me.add_cube c) f

/-- Outcome of one pass of the `'inner` scan of `DNFForm::add_cube_opt`:
the scan hit a non-reducible cube (`stop`), scanned all cubes seeing only
identity reductions (`allDone`), removed a cube whose reduction was
`[False]` (`removed`), or replaced a cube by a different reduction
(`replaced`).  The Bool of `stop`/`allDone` records whether an identity
reduction (which sets the `reduced` flag in the source) was seen. -/
inductive ScanRes where
  | stop : Bool → ScanRes
  | allDone : Bool → ScanRes
  | removed : List DNFCube → ScanRes
  | replaced : List DNFCube → ScanRes
deriving DecidableEq, Repr

/-- The `'inner` loop of `DNFForm::add_cube_opt`: scan the existing cubes in
order, reducing each against `cube`; break on the first failure, remove on a
`[False]` reduction, replace on a changed reduction, continue past identity
reductions. -/
def scan_cubes (cube : DNFCube) : List DNFCube → ScanRes
  | [] => .allDone false
  | c :: rest =>
    match c.try_to_reduce_disjunction cube with
    | none => .stop false
    | some r =>
      if r.is_false_const then .removed rest
      else if r.terms = c.terms then
        match scan_cubes cube rest with
        | .stop _ => .stop true
        | .allDone _ => .allDone true
        | .removed l => .removed (c :: l)
        | .replaced l => .replaced (c :: l)
      else .replaced (r :: rest)

/-- The `'outer` loop of `DNFForm::add_cube_opt`, with fuel; each fuel unit
is one restart of the scan.  Returns the cube list and the final `reduced`
flag. -/
def add_cube_opt_loop (cube : DNFCube) :
    Nat → List DNFCube → Bool → Option (List DNFCube × Bool)
  | 0, _, _ => none
  | n + 1, cubes, reduced =>
    match scan_cubes cube cubes with
    | .stop saw => some (cubes, reduced || saw)
    | .allDone saw => some (cubes, reduced || saw)
    | .removed l => add_cube_opt_loop cube n l true
    | .replaced l => add_cube_opt_loop cube n l true

/-- `DNFForm::add_cube_opt` (with fuel for the unbounded restart loop):
append the cube only when no reduction against an existing cube was
applied. -/
def DNFForm.add_cube_opt (fuel : Nat) (f : DNFForm) (cube : DNFCube) :
    Option DNFForm :=
  (add_cube_opt_loop cube fuel f.cubes false).map
    (fun p => if p.2 then ⟨p.1⟩ else ⟨p.1 ++ [cube]⟩)

/-- `DNFForm::disjunct_opt`: fold the other formula's cubes into `self` via
`add_cube_opt`. -/
def DNFForm.disjunct_opt (fuel : Nat) (f other : DNFForm) : Option DNFForm :=
  other.cubes.foldlM (fun me c => me.add_cube_opt fuel c) f

/-- The first `'fact_loop'` search of `DNFForm::optimize`: scan `cubes` for
the first cube whose reduction against `fact` differs from the cube. -/
def find_red_inner (fact : DNFCube) : List DNFCube → Nat → Option (DNFCube × Nat)
  | [], _ => none
  | c :: rest, i =>
    match c.try_to_reduce_disjunction fact with
    | some r => if r.terms ≠ c.terms then some (r, i)
                else find_red_inner fact rest (i + 1)
    | none => find_red_inner fact rest (i + 1)

/-- The fact iteration of `DNFForm::optimize`: facts are drawn from the
chained list `self.cubes ++ facts.cubes`, in order. -/
def find_red_outer (cubes : List DNFCube) : List DNFCube → Nat → Option (DNFCube × Nat × Nat)
  | [], _ => none
  | fact :: fs, fi =>
    match find_red_inner fact cubes 0 with
    | some (r, ci) => some (r, ci, fi)
    | none => find_red_outer cubes fs (fi + 1)

/-- One search pass of `DNFForm::optimize` over `(self.cubes ++ facts) × self.cubes`. -/
def find_reduction (self facts : List DNFCube) : Option (DNFCube × Nat × Nat) :=
  find_red_outer self (self ++ facts) 0

/-- The `'outer` loop of `DNFForm::optimize`, with fuel.  On a successful
reduction the source pushes the new cube, `swap_remove`s the old one (which
lands the new cube at its index), retires both to the facts bank, and removes
the fact's own cube from the formula when the fact was a live cube. -/
def optimize_loop : Nat → List DNFCube → List DNFCube → Option (List DNFCube)
  | 0, _, _ => none
  | n + 1, self, facts =>
    match find_reduction self facts with
    | none => some self
    | some (new_cube, at_, of_) =>
      let old := self.getD at_ ⟨[]⟩
      let self1 := self.set at_ new_cube
      let facts1 := facts ++ [new_cube, old]
      let self2 := if of_ < self1.length then self1.eraseIdx of_ else self1
      optimize_loop n self2 facts1

/-- `DNFForm::optimize` (with fuel for the unbounded fixpoint loop). -/
def DNFForm.optimize (fuel : Nat) (f : DNFForm) : Option DNFForm :=
  (optimize_loop fuel f.cubes []).map DNFForm.mk

/-- Semantics of a term under an interpretation of the variables (the
truth-table oracle of the specification). -/
def term_sem (i : Nat → Bool) : FormulaTerm → Bool
  | .Var v => i v
  | .NegVar v => !(i v)
  | .True => true
  | .False => false

/-- Semantics of a cube: conjunction of its terms. -/
def DNFCube.sem (c : DNFCube) (i : Nat → Bool) : Bool :=
  c.terms.all (term_sem i)

/-- Semantics of a formula: disjunction of its cubes. -/
def DNFForm.sem (f : DNFForm) (i : Nat → Bool) : Bool :=
  f.cubes.any (fun c => c.sem i)

/-! ## The site routing graph and the port-to-port router,
from `src/router/site_brute_router.rs`. -/

/-- Pin directions. -/
inductive PinDir where
  | Input | Output | Inout
deriving DecidableEq, Repr

/-- `enum RoutingGraphNodeKind`. -/
inductive RoutingGraphNodeKind where
  | BelPort : Nat → RoutingGraphNodeKind
  | RoutingBelPort : Nat → RoutingGraphNodeKind
  | SitePort : Nat → RoutingGraphNodeKind
  | FreePort : RoutingGraphNodeKind
deriving DecidableEq, Repr

/-- `struct RoutingGraphNode`. -/
structure RoutingGraphNode where
  kind : RoutingGraphNodeKind
  dir : PinDir
deriving DecidableEq, Repr

/-- `struct RoutingGraph`: a node list and a dense boolean adjacency matrix
stored row-major (`edges[from * nodes.len() + to]`). -/
structure RoutingGraph where
  nodes : List RoutingGraphNode
  edges : List Bool
deriving DecidableEq, Repr

/-- `RoutingGraph::node_count`. -/
def RoutingGraph.node_count (g : RoutingGraph) : Nat := g.nodes.length

/-- `RoutingGraph::get_edge`. -/
def RoutingGraph.get_edge (g : RoutingGraph) (a b : Nat) : Bool :=
  g.edges.getD (a * g.nodes.length + b) false

/-- `RoutingGraph::edges_from`: successors of `a` in ascending order. -/
def RoutingGraph.edges_from (g : RoutingGraph) (a : Nat) : List Nat :=
  (List.range g.nodes.length).filter (fun j => g.get_edge a j)

/-- `RoutingGraph::edges_to`: predecessors of `b` in ascending order. -/
def RoutingGraph.edges_to (g : RoutingGraph) (b : Nat) : List Nat :=
  (List.range g.nodes.length).filter (fun i => g.get_edge i b)

/-- `struct PTPRMarker`: per-node `requires`/`implies` state. -/
structure PTPRMarker where
  constraints : DNFForm
  activated : DNFForm
deriving DecidableEq, Repr

instance : Inhabited PTPRMarker := ⟨⟨⟨[]⟩, ⟨[]⟩⟩⟩

/-- `struct PortToPortRouterFrame` (accumulator and debug fields omitted:
they do not influence the routing result). -/
structure Frame where
  prev_node : Option Nat
  node : Nat
deriving DecidableEq, Repr

/-- Router state during BFS: the marker table and the FIFO queue. -/
structure RouterState where
  markers : List PTPRMarker
  queue : List Frame
deriving DecidableEq, Repr

/-- `PortToPortRouter::is_constr_subformular`. -/
def is_constr_subformular (markers : List PTPRMarker) (a : Option Nat) (b : Nat) : Bool :=
  match a with
  | some i => ((markers.getD i default).constraints).is_subformula_of
      ((markers.getD b default).constraints)
  | none => true

/-- `PortToPortRouter::is_activators_subformular`. -/
def is_activators_subformular (markers : List PTPRMarker) (a : Option Nat) (b : Nat) : Bool :=
  match a with
  | some i => ((markers.getD i default).activated).is_subformula_of
      ((markers.getD b default).activated)
  | none => true

/-- `PortToPortRouter::scan_constraint_requirements`: one `NegVar` per driver
of `node` other than `prev_node`; nothing when `prev_node` is `None`. -/
def scan_constraint_requirements (g : RoutingGraph) (node : Nat) (prev : Option Nat) :
    List FormulaTerm :=
  match prev with
  | none => []
  | some p => (g.edges_to node).filterMap
      (fun driver => if driver ≠ p then some (.NegVar driver) else none)

/-- `PortToPortRouter::scan_constraint_activators`: one `Var(prev)` per
predecessor of `node` equal to `prev_node`. -/
def scan_constraint_activators (g : RoutingGraph) (node : Nat) (prev : Option Nat) :
    List FormulaTerm :=
  match prev with
  | none => []
  | some p => (g.edges_to node).filterMap
      (fun pnode => if pnode = p then some (.Var p) else none)

/-- `new_requirements` of `routing_step`: the previous node's constraints
conjuncted with one `NegVar` per other driver of the node. -/
def ptpr_new_requirements (g : RoutingGraph) (markers : List PTPRMarker)
    (node : Nat) (prev : Option Nat) : DNFForm :=
  (scan_constraint_requirements g node prev).foldl
    (fun r c => r.conjunct_term c)
    (match prev with
     | some p => (markers.getD p default).constraints
     | none => DNFForm.new.add_cube ⟨[]⟩)

/-- `new_activators` of `routing_step`. -/
def ptpr_new_activators (g : RoutingGraph) (markers : List PTPRMarker)
    (node : Nat) (prev : Option Nat) : DNFForm :=
  (scan_constraint_activators g node prev).foldl
    (fun r c => r.conjunct_term c)
    (match prev with
     | some p => (markers.getD p default).activated
     | none => DNFForm.new.add_cube ⟨[]⟩)

/-- The marker updates of `routing_step`: first the `constraints` write
(disjunct when the previous node's constraints are not already subsumed,
plain overwrite otherwise), then the `activated` write (gated by the same
test, or by the activators test when `optimize_implies` is on). -/
def step_markers (g : RoutingGraph) (oi : Bool) (markers : List PTPRMarker)
    (f : Frame) : List PTPRMarker :=
  let new_requirements := ptpr_new_requirements g markers f.node f.prev_node
  let needs_alternative := !(is_constr_subformular markers f.prev_node f.node)
  let m1 := markers.getD f.node default
  let markers1 := markers.set f.node
    { m1 with constraints :=
        if needs_alternative then m1.constraints.disjunct new_requirements
        else new_requirements }
  let new_activators := ptpr_new_activators g markers1 f.node f.prev_node
  let needs_alternative2 :=
    if oi then !(is_activators_subformular markers1 f.prev_node f.node)
    else needs_alternative
  let m2 := markers1.getD f.node default
  markers1.set f.node
    { m2 with activated :=
        if needs_alternative2 then m2.activated.disjunct new_activators
        else new_activators }

/-- The frames enqueued by `routing_step`: one frame per outgoing edge whose
target's constraints do not already subsume the current node's (evaluated on
the updated markers). -/
def step_frames (g : RoutingGraph) (oi : Bool) (markers : List PTPRMarker)
    (f : Frame) : List Frame :=
  (g.edges_from f.node).filterMap
    (fun next =>
      if !(is_constr_subformular (step_markers g oi markers f) (some f.node) next) then
        some ⟨some f.node, next⟩
      else none)

/-- `PortToPortRouter::routing_step`: pop a frame, update the node's
`constraints` and `activated` formulas, enqueue successors whose constraints
do not already subsume the current node's. `none` when the queue is empty. -/
def routing_step (g : RoutingGraph) (optimize_implies : Bool) (st : RouterState) :
    Option RouterState :=
  match st.queue with
  | [] => none
  | frame :: qrest =>
    some ⟨step_markers g optimize_implies st.markers frame,
          qrest ++ step_frames g optimize_implies st.markers frame⟩

/-- The BFS loop of `PortToPortRouter::route_all`, with fuel (one unit per
`routing_step`); `none` when the fuel runs out before the queue drains. -/
def route_all_loop (g : RoutingGraph) (oi : Bool) :
    Nat → RouterState → Option (List PTPRMarker)
  | 0, _ => none
  | n + 1, st =>
    match routing_step g oi st with
    | none => some st.markers
    | some st2 => route_all_loop g oi n st2

/-- The initial router state built by `PortToPortRouter::new` plus
`init_constraints_and_activators` and the first queued frame of
`route_all`. -/
def init_state (g : RoutingGraph) (a : Nat) : RouterState :=
  let init_markers : List PTPRMarker :=
    (List.range g.nodes.length).map (fun _ => default)
  ⟨init_markers.set a ⟨DNFForm.new.add_cube ⟨[]⟩, DNFForm.new.add_cube ⟨[]⟩⟩,
   [⟨none, a⟩]⟩

/-- `PortToPortRouter::route_all`, with fuel. -/
def PortToPortRouter.route_all (g : RoutingGraph) (a : Nat) (oi : Bool) (fuel : Nat) :
    Option (List PTPRMarker) :=
  route_all_loop g oi fuel (init_state g a)

/-- `struct PinPairRoutingInfo`. -/
structure PinPairRoutingInfo where
  requires : List DNFCube
  implies : List DNFCube
deriving DecidableEq, Repr

/-- Stable insertion into a list sorted by ascending term count, placing the
new cube before the first strictly longer cube. -/
def insert_by_len (c : DNFCube) : List DNFCube → List DNFCube
  | [] => [c]
  | d :: ds =>
    if d.terms.length < c.terms.length then d :: insert_by_len c ds
    else c :: d :: ds

/-- The stable sort by cube length used by
`PinPairRoutingInfo::default_sort` (`sort_by_key(|cube| cube.len())`). -/
def sort_by_len (l : List DNFCube) : List DNFCube :=
  l.foldr insert_by_len []

/-- `impl From<PTPRMarker> for PinPairRoutingInfo` including `default_sort`. -/
def pin_pair_of (m : PTPRMarker) : PinPairRoutingInfo :=
  ⟨sort_by_len m.constraints.cubes, sort_by_len m.activated.cubes⟩

/-- `BruteRouter::route_pins` (with fuel): run the port-to-port router from
pin `a` (the `optimize` flag doubles as the router's `optimize_implies`
argument), then optionally optimize each node's constraints formula and
convert every marker into a `PinPairRoutingInfo`. -/
def BruteRouter.route_pins (g : RoutingGraph) (a : Nat) (optimize : Bool)
    (fuel : Nat) : Option (List PinPairRoutingInfo) :=
  (PortToPortRouter.route_all g a optimize fuel).bind (fun markers =>
    markers.mapM (fun marker =>
      (if optimize then marker.constraints.optimize fuel
       else some marker.constraints).map
        (fun c => pin_pair_of ⟨c, marker.activated⟩)))

/-- The body of `BruteRouter::route_range` for a single source pin: skip
`Input` pins, skip the sink equal to the source, keep only pairs with a
non-empty `requires` or `implies`. -/
def route_source (g : RoutingGraph) (optimize : Bool) (fuel : Nat) (src : Nat) :
    Option (List ((Nat × Nat) × PinPairRoutingInfo)) :=
  if (g.nodes.getD src ⟨.FreePort, .Inout⟩).dir = PinDir.Input then some []
  else
    (BruteRouter.route_pins g src optimize fuel).map (fun infos =>
      infos.enum.filterMap (fun p =>
        if p.1 = src then none
        else if p.2.requires.length ≠ 0 ∨ p.2.implies.length ≠ 0 then
          some ((src, p.1), p.2)
        else none))

/-- The source loop of `BruteRouter::route_range` over an explicit list of
source pins; the `HashMap` is modelled as the association list of its
insertions in program order (all inserted keys are distinct). -/
def route_range_go (g : RoutingGraph) (optimize : Bool) (fuel : Nat) :
    List Nat → Option (List ((Nat × Nat) × PinPairRoutingInfo))
  | [] => some []
  | s :: rest =>
    (route_source g optimize fuel s).bind (fun m =>
      (route_range_go g optimize fuel rest).map (fun ms => m ++ ms))

/-- `BruteRouter::route_range` over `range.start .. range.end`. -/
def BruteRouter.route_range (g : RoutingGraph) (a b : Nat) (optimize : Bool)
    (fuel : Nat) : Option (List ((Nat × Nat) × PinPairRoutingInfo)) :=
  route_range_go g optimize fuel (List.range' a (b - a))

/-- The `pin_to_pin_routing` map of `BruteRouter::route_all`: the whole
`0 .. node_count` range. -/
def BruteRouter.route_all (g : RoutingGraph) (optimize : Bool) (fuel : Nat) :
    Option (List ((Nat × Nat) × PinPairRoutingInfo)) :=
  BruteRouter.route_range g 0 g.node_count optimize fuel

/-- The `scan` loop of `split_range_nicely` in `src/common.rs`: `k` remaining
slices, `cur` the running start index, `left` the number of oversized slices
still to emit. -/
def split_scan (split_sz : Nat) : Nat → Nat → Nat → List (Nat × Nat)
  | 0, _, _ => []
  | k + 1, cur, left =>
    let my_len := if left > 0 then split_sz + 1 else split_sz
    let left2 := if left > 0 then left - 1 else left
    (cur, cur + my_len) :: split_scan split_sz k (cur + my_len) left2

/-- `split_range_nicely` from `src/common.rs` for the range `0 .. len`
(the callers pass `0 .. pin_cnt`): `none` models the division-by-zero panic
for `slices = 0`; empty ranges are filtered out. -/
def split_range_nicely (len slices : Nat) : Option (List (Nat × Nat)) :=
  if slices = 0 then none
  else
    let split_sz := len / slices
    let total := split_sz * slices
    let left := len - total
    some ((split_scan split_sz slices 0 left).filter (fun r => r.1 ≠ r.2))

/-- The `pin_to_pin_routing` map of
`MultiThreadedBruteRouter::route_all_multithreaded`: split `0 .. pin_cnt`
into per-worker ranges, route each range, and merge the per-worker maps in
worker order (`total_map.extend`). -/
def route_all_multithreaded (g : RoutingGraph) (thread_count : Nat)
    (optimize : Bool) (fuel : Nat) :
    Option (List ((Nat × Nat) × PinPairRoutingInfo)) :=
  (split_range_nicely g.node_count thread_count).bind (fun ranges =>
    ranges.foldlM
      (fun acc r =>
        (BruteRouter.route_range g r.1 r.2 optimize fuel).map (acc ++ ·))
      [])

/-! ## A concrete routing graph on which the BFS of `route_all` never
drains its queue (used to settle the termination claim). -/

/-- A five-node routing graph: source `0` drives `1` and `2`, nodes `1` and
`2` form a two-cycle, and nodes `3`, `4` are additional drivers of `1`
and `2` respectively (with no incoming edges). -/
def diverging_graph : RoutingGraph :=
  ⟨List.replicate 5 ⟨.BelPort 0, .Output⟩,
   [false, true,  true,  false, false,
    false, false, true,  false, false,
    false, true,  false, false, false,
    false, true,  false, false, false,
    false, false, true,  false, false]⟩

/-- Recognizes negative literals. -/
def isNegVarB : FormulaTerm → Bool
  | .NegVar _ => true
  | _ => false

/-- The permanent witness cube of node 1 in `diverging_graph`. -/
def w1cube : DNFCube := ⟨[.NegVar 2, .NegVar 3]⟩

/-- The permanent witness cube of node 2 in `diverging_graph`. -/
def w2cube : DNFCube := ⟨[.NegVar 1, .NegVar 4]⟩

/-- Shape of the constraints formulas of nodes 1 and 2 of
`diverging_graph` along the whole run: the witness cube is present, and
every cube is built from negative literals and is either the witness or has
at least three terms. -/
def good_form (w : DNFCube) (f : DNFForm) : Prop :=
  w ∈ f.cubes ∧
    ∀ c ∈ f.cubes,
      (∀ t ∈ c.terms, isNegVarB t = true) ∧ (c = w ∨ 3 ≤ c.terms.length)

/-- Inductive invariant of the router state on `diverging_graph`: marker
shape, the two `good_form` conditions, and a non-empty queue containing only
the frames `1→2` and `2→1`. -/
def DivergeInv (st : RouterState) : Prop :=
  (∃ m0 m3 m4 c1 a1 c2 a2,
    st.markers = [m0, ⟨c1, a1⟩, ⟨c2, a2⟩, m3, m4]
      ∧ good_form w1cube c1 ∧ good_form w2cube c2)
  ∧ st.queue ≠ []
  ∧ ∀ f ∈ st.queue, f = (⟨some 1, 2⟩ : Frame) ∨ f = (⟨some 2, 1⟩ : Frame)

/-- The router state after one step on `diverging_graph` from source 0. -/
def div_state1 : RouterState :=
  ⟨[⟨⟨[⟨[]⟩]⟩, ⟨[⟨[]⟩]⟩⟩, default, default, default, default],
   [⟨some 0, 1⟩, ⟨some 0, 2⟩]⟩

/-- The router state after two steps on `diverging_graph` from source 0. -/
def div_state2 : RouterState :=
  ⟨[⟨⟨[⟨[]⟩]⟩, ⟨[⟨[]⟩]⟩⟩,
    ⟨⟨[⟨[.NegVar 2, .NegVar 3]⟩]⟩, ⟨[⟨[.Var 0]⟩]⟩⟩,
    default, default, default],
   [⟨some 0, 2⟩, ⟨some 1, 2⟩]⟩

/-- The router state after three steps on `diverging_graph` from source 0;
from here on the `DivergeInv` invariant holds forever. -/
def div_state3 : RouterState :=
  ⟨[⟨⟨[⟨[]⟩]⟩, ⟨[⟨[]⟩]⟩⟩,
    ⟨⟨[⟨[.NegVar 2, .NegVar 3]⟩]⟩, ⟨[⟨[.Var 0]⟩]⟩⟩,
    ⟨⟨[⟨[.NegVar 1, .NegVar 4]⟩]⟩, ⟨[⟨[.Var 0]⟩]⟩⟩,
    default, default],
   [⟨some 1, 2⟩, ⟨some 2, 1⟩]⟩

/-! ## Lemmas and theorems -/

theorem foldl_add_cube (l : List DNFCube) :
    ∀ f : DNFForm, (l.foldl (fun me c => me.add_cube c) f).cubes = f.cubes ++ l := by
  induction l with
  | nil => intro f; simp
  | cons a l ih =>
    intro f
    rw [List.foldl_cons, ih (f.add_cube a)]
    simp [DNFForm.add_cube]

theorem disjunct_cubes (f g : DNFForm) :
    (f.disjunct g).cubes = f.cubes ++ g.cubes := foldl_add_cube g.cubes f

theorem conjunct_cubes (f : DNFForm) (t : FormulaTerm) :
    (f.conjunct_term t).cubes = f.cubes.map (fun c => c.add_term t) := rfl

theorem add_term_go_negvar (k : Nat) :
    ∀ l : List FormulaTerm, (∀ t ∈ l, isNegVarB t = true) →
      ∃ l', add_term_go (.NegVar k) l = some l'
        ∧ (∀ t ∈ l', isNegVarB t = true) ∧ l.length ≤ l'.length := by
  intro l
  induction l with
  | nil =>
    intro _
    exact ⟨[.NegVar k], rfl, by simp [isNegVarB], by simp⟩
  | cons t ts ih =>
    intro h
    have ht : isNegVarB t = true := h t (List.mem_cons_self t ts)
    have hts : ∀ x ∈ ts, isNegVarB x = true := fun x hx => h x (List.mem_cons_of_mem t hx)
    obtain ⟨v, rfl⟩ : ∃ v, t = FormulaTerm.NegVar v := by
      cases t with
      | NegVar v => exact ⟨v, rfl⟩
      | Var v => simp [isNegVarB] at ht
      | True => simp [isNegVarB] at ht
      | False => simp [isNegVarB] at ht
    by_cases h1 : term_lt (.NegVar k) (.NegVar v) = true
    · exact ⟨.NegVar k :: .NegVar v :: ts, by simp [add_term_go, h1], by
        intro x hx
        rcases List.mem_cons.mp hx with rfl | hx
        · simp [isNegVarB]
        · exact h x hx, by simp⟩
    · by_cases h2 : (FormulaTerm.NegVar k == FormulaTerm.NegVar v) = true
      · refine ⟨.NegVar v :: ts, ?_, h, by simp⟩
        simp [add_term_go, h1, h2]
      · obtain ⟨l', hl', hneg, hlen⟩ := ih hts
        refine ⟨.NegVar v :: l', ?_, ?_, by simpa using Nat.succ_le_succ hlen⟩
        · have h3 : neg_eq (FormulaTerm.NegVar k) (FormulaTerm.NegVar v) = false := rfl
          simp [add_term_go, h1, h2, h3, hl']
        · intro x hx
          rcases List.mem_cons.mp hx with rfl | hx
          · exact ht
          · exact hneg x hx

theorem add_term_negvar (c : DNFCube) (k : Nat)
    (h : ∀ t ∈ c.terms, isNegVarB t = true) :
    (∀ t ∈ (c.add_term (.NegVar k)).terms, isNegVarB t = true)
      ∧ c.terms.length ≤ (c.add_term (.NegVar k)).terms.length := by
  obtain ⟨l', hl', hneg, hlen⟩ := add_term_go_negvar k c.terms h
  unfold DNFCube.add_term
  rw [hl']
  exact ⟨hneg, hlen⟩

theorem subcube_len_lt (c c' : DNFCube) (h : c.terms.length < c'.terms.length) :
    c.is_subcube c' = false := by
  unfold DNFCube.is_subcube
  rw [if_pos h]

theorem subformula_false_of (f g : DNFForm) (c : DNFCube) (hc : c ∈ f.cubes)
    (h : ∀ c' ∈ g.cubes, c.is_subcube c' = false) :
    f.is_subformula_of g = false := by
  unfold DNFForm.is_subformula_of
  rw [List.all_eq_false]
  refine ⟨c, hc, ?_⟩
  rw [Bool.not_eq_true, List.any_eq_false]
  intro c' hc'
  simp [h c' hc']

theorem w1_no_container (c2 : DNFForm) (h : good_form w2cube c2) :
    ∀ c' ∈ c2.cubes, w1cube.is_subcube c' = false := by
  intro c' hc'
  rcases (h.2 c' hc').2 with rfl | hlen
  · decide
  · exact subcube_len_lt _ _ (by simpa [w1cube] using hlen)

theorem w2_no_container (c1 : DNFForm) (h : good_form w1cube c1) :
    ∀ c' ∈ c1.cubes, w2cube.is_subcube c' = false := by
  intro c' hc'
  rcases (h.2 c' hc').2 with rfl | hlen
  · decide
  · exact subcube_len_lt _ _ (by simpa [w2cube] using hlen)

theorem routing_step_12 (m0 m3 m4 : PTPRMarker) (c1 a1 c2 a2 : DNFForm) (q : List Frame)
    (h1 : c1.is_subformula_of c2 = false)
    (h2 : (c2.disjunct ((c1.conjunct_term (.NegVar 0)).conjunct_term (.NegVar 4))).is_subformula_of c1 = false) :
    routing_step diverging_graph false ⟨[m0, ⟨c1, a1⟩, ⟨c2, a2⟩, m3, m4], ⟨some 1, 2⟩ :: q⟩
      = some ⟨[m0, ⟨c1, a1⟩,
          ⟨c2.disjunct ((c1.conjunct_term (.NegVar 0)).conjunct_term (.NegVar 4)),
           a2.disjunct (a1.conjunct_term (.Var 1))⟩, m3, m4],
         q ++ [⟨some 2, 1⟩]⟩ := by
  have e1 : scan_constraint_requirements diverging_graph 2 (some 1)
      = [.NegVar 0, .NegVar 4] := by decide
  have e2 : scan_constraint_activators diverging_graph 2 (some 1) = [.Var 1] := by decide
  have e3 : diverging_graph.edges_from 2 = [1] := by decide
  simp [routing_step, step_markers, step_frames, ptpr_new_requirements,
    ptpr_new_activators, e1, e2, e3, is_constr_subformular, is_activators_subformular,
    h1, h2, List.getD, List.set]

theorem routing_step_21 (m0 m3 m4 : PTPRMarker) (c1 a1 c2 a2 : DNFForm) (q : List Frame)
    (h1 : c2.is_subformula_of c1 = false)
    (h2 : (c1.disjunct ((c2.conjunct_term (.NegVar 0)).conjunct_term (.NegVar 3))).is_subformula_of c2 = false) :
    routing_step diverging_graph false ⟨[m0, ⟨c1, a1⟩, ⟨c2, a2⟩, m3, m4], ⟨some 2, 1⟩ :: q⟩
      = some ⟨[m0,
          ⟨c1.disjunct ((c2.conjunct_term (.NegVar 0)).conjunct_term (.NegVar 3)),
           a1.disjunct (a2.conjunct_term (.Var 2))⟩,
          ⟨c2, a2⟩, m3, m4],
         q ++ [⟨some 1, 2⟩]⟩ := by
  have e1 : scan_constraint_requirements diverging_graph 1 (some 2)
      = [.NegVar 0, .NegVar 3] := by decide
  have e2 : scan_constraint_activators diverging_graph 1 (some 2) = [.Var 2] := by decide
  have e3 : diverging_graph.edges_from 1 = [2] := by decide
  simp [routing_step, step_markers, step_frames, ptpr_new_requirements,
    ptpr_new_activators, e1, e2, e3, is_constr_subformular, is_activators_subformular,
    h1, h2, List.getD, List.set]

theorem good_form_grow_2 (c1 c2 : DNFForm) (hg1 : good_form w1cube c1)
    (hg2 : good_form w2cube c2) :
    good_form w2cube
      (c2.disjunct ((c1.conjunct_term (.NegVar 0)).conjunct_term (.NegVar 4))) := by
  constructor
  · rw [disjunct_cubes]
    exact List.mem_append_left _ hg2.1
  · intro c hc
    rw [disjunct_cubes] at hc
    rcases List.mem_append.mp hc with hc | hc
    · exact hg2.2 c hc
    · rw [conjunct_cubes, conjunct_cubes] at hc
      simp only [List.map_map, List.mem_map] at hc
      obtain ⟨c0, hc0, rfl⟩ := hc
      have hneg0 := (hg1.2 c0 hc0).1
      have p1 := add_term_negvar c0 0 hneg0
      have p2 := add_term_negvar (c0.add_term (.NegVar 0)) 4 p1.1
      refine ⟨p2.1, Or.inr ?_⟩
      rcases (hg1.2 c0 hc0).2 with rfl | hlen
      · decide
      · have q1 := p1.2
        have q2 := p2.2
        simp only [Function.comp_apply]
        omega

theorem good_form_grow_1 (c1 c2 : DNFForm) (hg1 : good_form w1cube c1)
    (hg2 : good_form w2cube c2) :
    good_form w1cube
      (c1.disjunct ((c2.conjunct_term (.NegVar 0)).conjunct_term (.NegVar 3))) := by
  constructor
  · rw [disjunct_cubes]
    exact List.mem_append_left _ hg1.1
  · intro c hc
    rw [disjunct_cubes] at hc
    rcases List.mem_append.mp hc with hc | hc
    · exact hg1.2 c hc
    · rw [conjunct_cubes, conjunct_cubes] at hc
      simp only [List.map_map, List.mem_map] at hc
      obtain ⟨c0, hc0, rfl⟩ := hc
      have hneg0 := (hg2.2 c0 hc0).1
      have p1 := add_term_negvar c0 0 hneg0
      have p2 := add_term_negvar (c0.add_term (.NegVar 0)) 3 p1.1
      refine ⟨p2.1, Or.inr ?_⟩
      rcases (hg2.2 c0 hc0).2 with rfl | hlen
      · decide
      · have q1 := p1.2
        have q2 := p2.2
        simp only [Function.comp_apply]
        omega

theorem div_step (st : RouterState) (h : DivergeInv st) :
    ∃ st', routing_step diverging_graph false st = some st' ∧ DivergeInv st' := by
  obtain ⟨⟨m0, m3, m4, c1, a1, c2, a2, hm, hg1, hg2⟩, hne, hq⟩ := h
  obtain ⟨ms, qs⟩ := st
  simp only at hm hne hq ⊢
  subst hm
  cases qs with
  | nil => exact absurd rfl hne
  | cons f q =>
    have hqmem : ∀ x ∈ q, x = (⟨some 1, 2⟩ : Frame) ∨ x = (⟨some 2, 1⟩ : Frame) :=
      fun x hx => hq x (List.mem_cons_of_mem f hx)
    rcases hq f (List.mem_cons_self f q) with rfl | rfl
    · -- frame 1 → 2
      have h1 : c1.is_subformula_of c2 = false :=
        subformula_false_of _ _ w1cube hg1.1 (w1_no_container _ hg2)
      have hg2' := good_form_grow_2 c1 c2 hg1 hg2
      have h2 : (c2.disjunct ((c1.conjunct_term (.NegVar 0)).conjunct_term (.NegVar 4))).is_subformula_of c1 = false :=
        subformula_false_of _ _ w2cube hg2'.1 (w2_no_container _ hg1)
      refine ⟨_, routing_step_12 m0 m3 m4 c1 a1 c2 a2 q h1 h2, ?_⟩
      refine ⟨⟨m0, m3, m4, c1, a1, _, _, rfl, hg1, hg2'⟩, by simp, ?_⟩
      intro x hx
      rcases List.mem_append.mp hx with hx | hx
      · exact hqmem x hx
      · right
        simpa using hx
    · -- frame 2 → 1
      have h1 : c2.is_subformula_of c1 = false :=
        subformula_false_of _ _ w2cube hg2.1 (w2_no_container _ hg1)
      have hg1' := good_form_grow_1 c1 c2 hg1 hg2
      have h2 : (c1.disjunct ((c2.conjunct_term (.NegVar 0)).conjunct_term (.NegVar 3))).is_subformula_of c2 = false :=
        subformula_false_of _ _ w1cube hg1'.1 (w1_no_container _ hg2)
      refine ⟨_, routing_step_21 m0 m3 m4 c1 a1 c2 a2 q h1 h2, ?_⟩
      refine ⟨⟨m0, m3, m4, _, _, c2, a2, rfl, hg1', hg2⟩, by simp, ?_⟩
      intro x hx
      rcases List.mem_append.mp hx with hx | hx
      · exact hqmem x hx
      · left
        simpa using hx

theorem div_loop (n : Nat) :
    ∀ st, DivergeInv st → route_all_loop diverging_graph false n st = none := by
  induction n with
  | zero => intro st _; rfl
  | succ n ih =>
    intro st h
    obtain ⟨st', he, h'⟩ := div_step st h
    rw [route_all_loop, he]
    exact ih st' h'

theorem route_all_loop_succ (g : RoutingGraph) (oi : Bool) (n : Nat) (st : RouterState) :
    route_all_loop g oi (n + 1) st =
      match routing_step g oi st with
      | none => some st.markers
      | some st2 => route_all_loop g oi n st2 := rfl

/-- C3: the claim that `PortToPortRouter::route_all` terminates on every
finite routing graph is FALSE on the code: on `diverging_graph` (five nodes,
a two-cycle between nodes 1 and 2, and one extra driver for each of them)
the BFS queue never drains — for every fuel bound the loop is still running.
The subsumption gate never closes because each pass around the two-cycle
conjoins fresh `NegVar` terms, and the lengthened cubes are never subcubes
of the cubes already stored. -/
theorem c3_router_nontermination :
    ∀ n : Nat, PortToPortRouter.route_all diverging_graph 0 false n = none := by
  have hinv : DivergeInv div_state3 :=
    ⟨⟨_, _, _, _, _, _, _, rfl, ⟨by decide, by decide⟩, ⟨by decide, by decide⟩⟩,
      by decide, by decide⟩
  have e1 : routing_step diverging_graph false (init_state diverging_graph 0)
      = some div_state1 := by decide
  have e2 : routing_step diverging_graph false div_state1 = some div_state2 := by decide
  have e3 : routing_step diverging_graph false div_state2 = some div_state3 := by decide
  intro n
  match n with
  | 0 => rfl
  | 1 => decide
  | 2 => decide
  | 3 => decide
  | (m + 4) =>
    show route_all_loop diverging_graph false (m + 4) (init_state diverging_graph 0) = none
    rw [route_all_loop_succ, e1]
    show route_all_loop diverging_graph false (m + 3) div_state1 = none
    rw [route_all_loop_succ, e2]
    show route_all_loop diverging_graph false (m + 2) div_state2 = none
    rw [route_all_loop_succ, e3]
    show route_all_loop diverging_graph false (m + 1) div_state3 = none
    exact div_loop (m + 1) div_state3 hinv

/-- C1: the soundness claim for cube disjunction reduction is FALSE on the
code: for A = x0 ∧ x1 and B = ¬x0, `try_to_reduce_disjunction` returns the
empty cube (⊤), yet the interpretation x0 ↦ true, x1 ↦ false satisfies
neither A nor B, so the result is not equivalent to A ∨ B.  (After the
complementary-pair step consumes x0/¬x0, B is exhausted while A still holds
x1, and the exhaustion arm accepts because `less_strict_than_other` is
set.) -/
theorem c1_reduce_disjunction_unsound :
    DNFCube.try_to_reduce_disjunction ⟨[.Var 0, .Var 1]⟩ ⟨[.NegVar 0]⟩ = some ⟨[]⟩
    ∧ DNFCube.sem ⟨[]⟩ (fun v => v == 0) = true
    ∧ DNFCube.sem ⟨[.Var 0, .Var 1]⟩ (fun v => v == 0) = false
    ∧ DNFCube.sem ⟨[.NegVar 0]⟩ (fun v => v == 0) = false := by
  refine ⟨?_, by decide, by decide, by decide⟩
  simp [DNFCube.try_to_reduce_disjunction, reduce_go, nat_cmp]

/-- C2: the subsumption soundness claim is FALSE on the code:
`is_subcube` on the sorted, duplicate-free cubes [x0] and [x1] returns true,
and `is_subformula_of` on the formulas [[x0]] and [[x1]] returns true, yet
the interpretation x0 ↦ true, x1 ↦ false satisfies the left operand and not
the right one, contradicting the claimed semantic equivalence. -/
theorem c2_subsumption_unsound :
    DNFCube.is_subcube ⟨[.Var 0]⟩ ⟨[.Var 1]⟩ = true
    ∧ DNFForm.is_subformula_of ⟨[⟨[.Var 0]⟩]⟩ ⟨[⟨[.Var 1]⟩]⟩ = true
    ∧ DNFCube.sem ⟨[.Var 0]⟩ (fun v => v == 0) = true
    ∧ DNFCube.sem ⟨[.Var 1]⟩ (fun v => v == 0) = false
    ∧ DNFForm.sem ⟨[⟨[.Var 0]⟩]⟩ (fun v => v == 0) = true
    ∧ DNFForm.sem ⟨[⟨[.Var 1]⟩]⟩ (fun v => v == 0) = false := by decide

/-- C5: term order totality is FALSE on the code: for t1 = ⊤ and
t2 = Var 0 the comparator reports both "t1 equal t2" (`term_cmp ⊤ (Var 0)`
is `Equal`, from the arm `(True, _) => Equal`) and "t2 less than t1"
(`term_cmp (Var 0) ⊤` is `Less`), although the two terms are different;
the order's own comment places ⊤ strictly above every variable. -/
theorem c5_term_cmp_violates_totality :
    term_cmp .True (.Var 0) = ROrdering.Equal
    ∧ term_cmp (.Var 0) .True = ROrdering.Less
    ∧ FormulaTerm.True ≠ FormulaTerm.Var 0 := by decide

/-- C6 counterexample: `add_cube_opt` on the formula [[x0], [x1]] and the
cube [x1] appends [x1] even though a reduction against the existing cube
[x1] applies (`try_to_reduce_disjunction` returns it unchanged): the scan
stops at the first cube [x0], whose reduction fails, and never reaches
[x1]. -/
theorem c6_add_cube_opt_counterexample :
    DNFForm.add_cube_opt 3 ⟨[⟨[.Var 0]⟩, ⟨[.Var 1]⟩]⟩ ⟨[.Var 1]⟩
      = some ⟨[⟨[.Var 0]⟩, ⟨[.Var 1]⟩, ⟨[.Var 1]⟩]⟩
    ∧ DNFCube.try_to_reduce_disjunction ⟨[.Var 1]⟩ ⟨[.Var 1]⟩ = some ⟨[.Var 1]⟩ := by
  constructor
  · simp [DNFForm.add_cube_opt, add_cube_opt_loop, scan_cubes,
      DNFCube.try_to_reduce_disjunction, reduce_go, nat_cmp, DNFCube.is_false_const]
  · simp [DNFCube.try_to_reduce_disjunction, reduce_go, nat_cmp]

theorem scan_cubes_removed_len (cube : DNFCube) :
    ∀ l l', scan_cubes cube l = .removed l' → l'.length + 1 = l.length := by
  intro l
  induction l with
  | nil => intro l' h; simp [scan_cubes] at h
  | cons c rest ih =>
    intro l' h
    unfold scan_cubes at h
    cases hr : c.try_to_reduce_disjunction cube with
    | none => rw [hr] at h; exact absurd h (by simp)
    | some r =>
      rw [hr] at h
      by_cases hf : r.is_false_const = true
      · simp only [hf, if_true] at h
        cases h
        simp
      · simp only [hf] at h
        by_cases hid : r.terms = c.terms
        · simp only [hid, if_pos rfl] at h
          cases hs : scan_cubes cube rest with
          | stop s => rw [hs] at h; exact absurd h (by simp)
          | allDone s => rw [hs] at h; exact absurd h (by simp)
          | removed l0 =>
            rw [hs] at h
            cases h
            simp [← ih l0 hs]
          | replaced l0 => rw [hs] at h; exact absurd h (by simp)
        · simp only [if_neg hid] at h
          exact absurd h (by simp)

theorem scan_cubes_replaced_len (cube : DNFCube) :
    ∀ l l', scan_cubes cube l = .replaced l' → l'.length = l.length := by
  intro l
  induction l with
  | nil => intro l' h; simp [scan_cubes] at h
  | cons c rest ih =>
    intro l' h
    unfold scan_cubes at h
    cases hr : c.try_to_reduce_disjunction cube with
    | none => rw [hr] at h; exact absurd h (by simp)
    | some r =>
      rw [hr] at h
      by_cases hf : r.is_false_const = true
      · simp only [hf, if_true] at h
        exact absurd h (by simp)
      · simp only [hf] at h
        by_cases hid : r.terms = c.terms
        · simp only [hid, if_pos rfl] at h
          cases hs : scan_cubes cube rest with
          | stop s => rw [hs] at h; exact absurd h (by simp)
          | allDone s => rw [hs] at h; exact absurd h (by simp)
          | removed l0 => rw [hs] at h; exact absurd h (by simp)
          | replaced l0 =>
            rw [hs] at h
            cases h
            simp [ih l0 hs]
        · simp only [if_neg hid] at h
          cases h
          simp

theorem add_cube_opt_loop_len (cube : DNFCube) :
    ∀ n l red l' red', add_cube_opt_loop cube n l red = some (l', red') →
      l'.length ≤ l.length := by
  intro n
  induction n with
  | zero => intro l red l' red' h; simp [add_cube_opt_loop] at h
  | succ n ih =>
    intro l red l' red' h
    unfold add_cube_opt_loop at h
    cases hs : scan_cubes cube l with
    | stop s => rw [hs] at h; cases h; exact Nat.le_refl _
    | allDone s => rw [hs] at h; cases h; exact Nat.le_refl _
    | removed l0 =>
      rw [hs] at h
      have := ih l0 true l' red' h
      have := scan_cubes_removed_len cube l l0 hs
      omega
    | replaced l0 =>
      rw [hs] at h
      have := ih l0 true l' red' h
      have := scan_cubes_replaced_len cube l l0 hs
      omega

theorem add_cube_opt_loop_red_true (cube : DNFCube) :
    ∀ n l l' red', add_cube_opt_loop cube n l true = some (l', red') →
      red' = true := by
  intro n
  induction n with
  | zero => intro l l' red' h; simp [add_cube_opt_loop] at h
  | succ n ih =>
    intro l l' red' h
    unfold add_cube_opt_loop at h
    cases hs : scan_cubes cube l with
    | stop s => rw [hs] at h; cases h; rfl
    | allDone s => rw [hs] at h; cases h; rfl
    | removed l0 => rw [hs] at h; exact ih l0 l' red' h
    | replaced l0 => rw [hs] at h; exact ih l0 l' red' h

/-- C6 (amended): `add_cube_opt` scans the existing cubes in order and stops
at the FIRST cube against which the reduction fails; hence the cube is
appended exactly when the formula is empty or the reduction against the
formula's first cube fails — a reducible cube later in the list does not
prevent the append. -/
theorem c6_add_cube_opt_append_iff (n : Nat) (F : DNFForm) (c : DNFCube)
    (R : DNFForm) (h : DNFForm.add_cube_opt n F c = some R) :
    R.cubes = F.cubes ++ [c] ↔
      (match F.cubes with
       | [] => True
       | c0 :: _ => c0.try_to_reduce_disjunction c = none) := by
  unfold DNFForm.add_cube_opt at h
  obtain ⟨⟨l1, red⟩, hloop, hR⟩ := Option.map_eq_some'.mp h
  obtain ⟨m, rfl⟩ : ∃ m, n = m + 1 := by
    cases n with
    | zero => simp [add_cube_opt_loop] at hloop
    | succ m => exact ⟨m, rfl⟩
  cases hcs : F.cubes with
  | nil =>
    rw [hcs] at hloop
    unfold add_cube_opt_loop at hloop
    simp only [scan_cubes] at hloop
    cases hloop
    simp only [Bool.false_or] at hR
    subst hR
    simp
  | cons c0 rest =>
    rw [hcs] at hloop
    cases hr : c0.try_to_reduce_disjunction c with
    | none =>
      unfold add_cube_opt_loop at hloop
      have hscan : scan_cubes c (c0 :: rest) = .stop false := by
        unfold scan_cubes
        rw [hr]
      rw [hscan] at hloop
      cases hloop
      simp only [Bool.false_or] at hR
      subst hR
      simp only [List.cons_append]
      constructor
      · intro _
        exact hr
      · intro _
        rfl
    | some r =>
      have hlen : R.cubes.length ≤ (c0 :: rest).length := by
        unfold add_cube_opt_loop at hloop
        cases hscan : scan_cubes c (c0 :: rest) with
        | stop s =>
          have hsaw : s = true := by
            unfold scan_cubes at hscan
            rw [hr] at hscan
            by_cases hf : r.is_false_const = true
            · simp [hf] at hscan
            · simp only [hf] at hscan
              by_cases hid : r.terms = c0.terms
              · simp only [hid, if_pos rfl] at hscan
                cases hs2 : scan_cubes c rest with
                | stop s2 => rw [hs2] at hscan; cases hscan; rfl
                | allDone s2 => rw [hs2] at hscan; exact absurd hscan (by simp)
                | removed l0 => rw [hs2] at hscan; exact absurd hscan (by simp)
                | replaced l0 => rw [hs2] at hscan; exact absurd hscan (by simp)
              · simp only [if_neg hid] at hscan
                exact absurd hscan (by simp)
          rw [hscan] at hloop
          cases hloop
          rw [hsaw] at hR
          simp only [Bool.or_true] at hR
          have hRc : R.cubes = c0 :: rest := by rw [← hR]; simp
          rw [hRc]
        | allDone s =>
          have hsaw : s = true := by
            unfold scan_cubes at hscan
            rw [hr] at hscan
            by_cases hf : r.is_false_const = true
            · simp [hf] at hscan
            · simp only [hf] at hscan
              by_cases hid : r.terms = c0.terms
              · simp only [hid, if_pos rfl] at hscan
                cases hs2 : scan_cubes c rest with
                | stop s2 => rw [hs2] at hscan; exact absurd hscan (by simp)
                | allDone s2 => rw [hs2] at hscan; cases hscan; rfl
                | removed l0 => rw [hs2] at hscan; exact absurd hscan (by simp)
                | replaced l0 => rw [hs2] at hscan; exact absurd hscan (by simp)
              · simp only [if_neg hid] at hscan
                exact absurd hscan (by simp)
          rw [hscan] at hloop
          cases hloop
          rw [hsaw] at hR
          simp only [Bool.or_true] at hR
          have hRc : R.cubes = c0 :: rest := by rw [← hR]; simp
          rw [hRc]
        | removed l0 =>
          rw [hscan] at hloop
          have h1 := add_cube_opt_loop_len c m l0 true l1 red hloop
          have h2 := scan_cubes_removed_len c (c0 :: rest) l0 hscan
          have h3 := add_cube_opt_loop_red_true c m l0 l1 red hloop
          have hRc : R.cubes = l1 := by rw [← hR, h3]; simp
          rw [hRc]
          simp only [List.length_cons] at h2 ⊢
          omega
        | replaced l0 =>
          rw [hscan] at hloop
          have h1 := add_cube_opt_loop_len c m l0 true l1 red hloop
          have h2 := scan_cubes_replaced_len c (c0 :: rest) l0 hscan
          have h3 := add_cube_opt_loop_red_true c m l0 l1 red hloop
          have hRc : R.cubes = l1 := by rw [← hR, h3]; simp
          rw [hRc]
          simp only [List.length_cons] at h2 ⊢
          omega
      constructor
      · intro habs
        have : R.cubes.length = rest.length + 2 := by
          rw [habs]
          simp
        simp only [List.length_cons] at hlen
        omega
      · intro habs
        simp only [hr] at habs
        exact absurd habs (by simp)

/-- C6 witness: a concrete run of `add_cube_opt` in which the appended-iff
characterization holds with both sides true. -/
theorem c6_add_cube_opt_append_iff_witness :
    DNFForm.add_cube_opt 2 ⟨[⟨[.Var 0]⟩]⟩ ⟨[.Var 1]⟩
      = some ⟨[⟨[.Var 0]⟩, ⟨[.Var 1]⟩]⟩
    ∧ ((⟨[⟨[.Var 0]⟩, ⟨[.Var 1]⟩]⟩ : DNFForm).cubes
        = (⟨[⟨[.Var 0]⟩]⟩ : DNFForm).cubes ++ [⟨[.Var 1]⟩] ↔
      (match (⟨[⟨[.Var 0]⟩]⟩ : DNFForm).cubes with
       | [] => True
       | c0 :: _ => c0.try_to_reduce_disjunction ⟨[.Var 1]⟩ = none)) := by
  have h : DNFForm.add_cube_opt 2 ⟨[⟨[.Var 0]⟩]⟩ ⟨[.Var 1]⟩
      = some ⟨[⟨[.Var 0]⟩, ⟨[.Var 1]⟩]⟩ := by
    simp [DNFForm.add_cube_opt, add_cube_opt_loop, scan_cubes,
      DNFCube.try_to_reduce_disjunction, reduce_go, nat_cmp]
  exact ⟨h, c6_add_cube_opt_append_iff 2 _ _ _ h⟩

theorem find_red_outer_none_prefix (cubes : List DNFCube) :
    ∀ l1 l2 : List DNFCube, ∀ i : Nat,
      find_red_outer cubes (l1 ++ l2) i = none → find_red_outer cubes l1 i = none := by
  intro l1
  induction l1 with
  | nil => intro l2 i _; rfl
  | cons f fs ih =>
    intro l2 i h
    rw [List.cons_append] at h
    unfold find_red_outer at h ⊢
    cases hi : find_red_inner f cubes 0 with
    | some p => rw [hi] at h; exact absurd h (by simp)
    | none =>
      rw [hi] at h
      exact ih l2 (i + 1) h

theorem optimize_loop_terminal :
    ∀ (n : Nat) (self facts G : List DNFCube),
      optimize_loop n self facts = some G → find_red_outer G G 0 = none := by
  intro n
  induction n with
  | zero => intro self facts G h; simp [optimize_loop] at h
  | succ n ih =>
    intro self facts G h
    unfold optimize_loop at h
    cases hfr : find_reduction self facts with
    | none =>
      rw [hfr] at h
      injection h with hG
      subst hG
      unfold find_reduction at hfr
      exact find_red_outer_none_prefix self self facts 0 hfr
    | some p =>
      rw [hfr] at h
      obtain ⟨q, rest⟩ := p
      obtain ⟨at_, of_⟩ := rest
      exact ih _ _ G h

/-- C7: the formula optimizer is idempotent: whenever `optimize` finishes
(within the given fuel) and returns `G`, running `optimize` again on `G`
returns `G` unchanged.  The terminal state of the first run admits no
reduction between any fact and any live cube, in particular none between two
live cubes, so the second run stops in its first iteration. -/
theorem c7_optimize_idempotent (F : DNFForm) (n : Nat) (G : DNFForm)
    (h : DNFForm.optimize n F = some G) : DNFForm.optimize n G = some G := by
  unfold DNFForm.optimize at h ⊢
  obtain ⟨l, hl, hG⟩ := Option.map_eq_some'.mp h
  have hterm := optimize_loop_terminal n F.cubes [] l hl
  obtain ⟨m, rfl⟩ : ∃ m, n = m + 1 := by
    cases n with
    | zero => simp [optimize_loop] at hl
    | succ m => exact ⟨m, rfl⟩
  have hGl : G.cubes = l := by rw [← hG]
  unfold optimize_loop
  have hfr : find_reduction G.cubes [] = none := by
    unfold find_reduction
    rw [List.append_nil, hGl]
    exact hterm
  rw [hfr]
  rfl

/-- C7 witness: optimizing the two-cube formula x0 ∨ ¬x0 terminates with the
single-cube formula ⊤, and optimizing that result returns it unchanged. -/
theorem c7_optimize_idempotent_witness :
    DNFForm.optimize 3 ⟨[⟨[.Var 0]⟩, ⟨[.NegVar 0]⟩]⟩ = some ⟨[⟨[]⟩]⟩
    ∧ DNFForm.optimize 3 (⟨[⟨[]⟩]⟩ : DNFForm) = some ⟨[⟨[]⟩]⟩ := by
  have h : DNFForm.optimize 3 ⟨[⟨[.Var 0]⟩, ⟨[.NegVar 0]⟩]⟩ = some ⟨[⟨[]⟩]⟩ := by
    simp [DNFForm.optimize, optimize_loop, find_reduction, find_red_outer,
      find_red_inner, DNFCube.try_to_reduce_disjunction, reduce_go, nat_cmp]
  exact ⟨h, c7_optimize_idempotent _ 3 _ h⟩

/-- C8 counterexample: the `PartialEq` test on the one-cube formulas [[x0]]
and [[x1]] returns true (forward containment plus equal cube counts), yet
[[x1]] is not a subformula of [[x0]]: equality is NOT mutual subformula
containment. -/
theorem c8_eq_counterexample :
    DNFForm.eqForm ⟨[⟨[.Var 0]⟩]⟩ ⟨[⟨[.Var 1]⟩]⟩ = true
    ∧ DNFForm.is_subformula_of ⟨[⟨[.Var 1]⟩]⟩ ⟨[⟨[.Var 0]⟩]⟩ = false := by decide

/-- C8 (amended): the equality test returns true iff the left formula is a
subformula of the right one AND either the two formulas have the same number
of cubes or the right formula is a subformula of the left one; mutual
containment therefore implies equality, but when the cube counts are equal
the reverse containment is not checked. -/
theorem c8_eqForm_characterization (F G : DNFForm) :
    DNFForm.eqForm F G = true ↔
      (F.is_subformula_of G = true
        ∧ (F.cubes.length = G.cubes.length ∨ G.is_subformula_of F = true)) := by
  simp [DNFForm.eqForm]

theorem getD_set_self (l : List PTPRMarker) (i : Nat) (x d : PTPRMarker)
    (h : i < l.length) : (l.set i x).getD i d = x := by
  simp [List.getD, List.getElem?_set_self', h]

theorem getD_set_ne (l : List PTPRMarker) (i j : Nat) (x d : PTPRMarker)
    (h : i ≠ j) : (l.set i x).getD j d = l.getD j d := by
  simp [List.getD, List.getElem?_set_ne h]

theorem conj_fold_num_cubes (terms : List FormulaTerm) :
    ∀ base : DNFForm,
      ((terms.foldl (fun r c => r.conjunct_term c) base)).cubes.length
        = base.cubes.length := by
  induction terms with
  | nil => intro base; rfl
  | cons t ts ih =>
    intro base
    rw [List.foldl_cons, ih (base.conjunct_term t)]
    simp [DNFForm.conjunct_term]

theorem edges_from_lt (g : RoutingGraph) (a j : Nat) (h : j ∈ g.edges_from a) :
    j < g.node_count := by
  unfold RoutingGraph.edges_from at h
  exact List.mem_range.mp (List.mem_filter.mp h).1


theorem conj_fold_ne (terms : List FormulaTerm) (base : DNFForm)
    (h : base.cubes ≠ []) :
    ((terms.foldl (fun r c => r.conjunct_term c) base)).cubes ≠ [] := by
  intro habs
  have hl := conj_fold_num_cubes terms base
  rw [habs] at hl
  exact h (List.length_eq_zero.mp hl.symm)

theorem new_requirements_ne (g : RoutingGraph) (markers : List PTPRMarker)
    (node : Nat) (prev : Option Nat)
    (hprev : ∀ p, prev = some p → (markers.getD p default).constraints.cubes ≠ []) :
    (ptpr_new_requirements g markers node prev).cubes ≠ [] := by
  unfold ptpr_new_requirements
  apply conj_fold_ne
  cases hp : prev with
  | none => simp [DNFForm.new, DNFForm.add_cube]
  | some p => exact hprev p hp

theorem ite_disjunct_ne (P : Prop) [Decidable P] (old new : DNFForm)
    (h : new.cubes ≠ []) : (if P then old.disjunct new else new).cubes ≠ [] := by
  split
  · rw [disjunct_cubes]
    intro habs
    exact h (List.append_eq_nil.mp habs).2
  · exact h

theorem step_markers_len (g : RoutingGraph) (oi : Bool) (markers : List PTPRMarker)
    (f : Frame) : (step_markers g oi markers f).length = markers.length := by
  unfold step_markers
  simp

theorem step_markers_constraints (g : RoutingGraph) (oi : Bool)
    (markers : List PTPRMarker) (f : Frame) (hnode : f.node < markers.length) :
    ∀ i, ((step_markers g oi markers f).getD i default).constraints
      = if i = f.node then
          (if (!(is_constr_subformular markers f.prev_node f.node)) = true then
            (markers.getD f.node default).constraints.disjunct
              (ptpr_new_requirements g markers f.node f.prev_node)
          else ptpr_new_requirements g markers f.node f.prev_node)
        else (markers.getD i default).constraints := by
  intro i
  unfold step_markers
  simp only [List.set_set]
  by_cases hi : i = f.node
  · subst hi
    rw [if_pos rfl]
    rw [getD_set_self markers f.node _ _ hnode]
    rw [getD_set_self markers f.node _ _ hnode]
  · rw [if_neg hi, getD_set_ne markers f.node i _ _ (fun hc => hi hc.symm)]

theorem step_frames_mem (g : RoutingGraph) (oi : Bool) (markers : List PTPRMarker)
    (f fr : Frame) (h : fr ∈ step_frames g oi markers f) :
    fr.node ∈ g.edges_from f.node ∧ fr.prev_node = some f.node := by
  unfold step_frames at h
  obtain ⟨next, hnext, hsome⟩ := List.mem_filterMap.mp h
  split at hsome
  · injection hsome with h2
    subst h2
    exact ⟨hnext, rfl⟩
  · exact absurd hsome (by simp)

theorem routing_step_preserves (g : RoutingGraph) (oi : Bool) (st st' : RouterState)
    (h : routing_step g oi st = some st')
    (hlen : st.markers.length = g.node_count)
    (hq : ∀ fr ∈ st.queue, fr.node < g.node_count ∧
            ∀ p, fr.prev_node = some p →
              (st.markers.getD p default).constraints.cubes ≠ []) :
    st'.markers.length = g.node_count
    ∧ (∀ i, (st.markers.getD i default).constraints.cubes ≠ [] →
         (st'.markers.getD i default).constraints.cubes ≠ [])
    ∧ (∀ fr ∈ st'.queue, fr.node < g.node_count ∧
         ∀ p, fr.prev_node = some p →
           (st'.markers.getD p default).constraints.cubes ≠ []) := by
  obtain ⟨markers, queue⟩ := st
  cases queue with
  | nil => exact absurd h (by simp [routing_step])
  | cons f q =>
    have hf := hq f (List.mem_cons_self f q)
    have hnode : f.node < markers.length := by
      have := hf.1
      simp only at hlen
      omega
    have hnewne : (ptpr_new_requirements g markers f.node f.prev_node).cubes ≠ [] :=
      new_requirements_ne g markers f.node f.prev_node (fun p hp => hf.2 p hp)
    unfold routing_step at h
    simp only [Option.some.injEq] at h
    subst h
    have hgetc := step_markers_constraints g oi markers f hnode
    have hmono : ∀ i, (markers.getD i default).constraints.cubes ≠ [] →
        (((step_markers g oi markers f).getD i default).constraints.cubes ≠ []) := by
      intro i hi
      rw [hgetc i]
      by_cases hie : i = f.node
      · rw [if_pos hie]
        exact ite_disjunct_ne _ _ _ hnewne
      · rw [if_neg hie]
        exact hi
    have hnodec : (((step_markers g oi markers f).getD f.node default).constraints.cubes ≠ []) := by
      rw [hgetc f.node, if_pos rfl]
      exact ite_disjunct_ne _ _ _ hnewne
    refine ⟨?_, hmono, ?_⟩
    · rw [step_markers_len]
      exact hlen
    · intro fr hfr
      rcases List.mem_append.mp hfr with hfr | hfr
      · have hh := hq fr (List.mem_cons_of_mem f hfr)
        exact ⟨hh.1, fun p hp => hmono p (hh.2 p hp)⟩
      · obtain ⟨hin, hprev⟩ := step_frames_mem g oi markers f fr hfr
        refine ⟨edges_from_lt g f.node fr.node hin, ?_⟩
        intro p hp
        rw [hprev] at hp
        injection hp with hp
        subst hp
        exact hnodec

theorem route_all_loop_nonempty (g : RoutingGraph) (oi : Bool) (src : Nat) :
    ∀ (n : Nat) (st : RouterState) (markers : List PTPRMarker),
      st.markers.length = g.node_count →
      (∀ fr ∈ st.queue, fr.node < g.node_count ∧
        ∀ p, fr.prev_node = some p →
          (st.markers.getD p default).constraints.cubes ≠ []) →
      (st.markers.getD src default).constraints.cubes ≠ [] →
      route_all_loop g oi n st = some markers →
      (markers.getD src default).constraints.cubes ≠ [] := by
  intro n
  induction n with
  | zero =>
    intro st markers _ _ _ h
    simp [route_all_loop] at h
  | succ n ih =>
    intro st markers hlen hq hsrc h
    rw [route_all_loop_succ] at h
    cases hstep : routing_step g oi st with
    | none =>
      rw [hstep] at h
      cases h
      exact hsrc
    | some st2 =>
      rw [hstep] at h
      obtain ⟨hlen2, hmono, hq2⟩ := routing_step_preserves g oi st st2 hstep hlen hq
      exact ih st2 markers hlen2 hq2 (hmono src hsrc) h

theorem route_all_marker_nonempty (g : RoutingGraph) (src : Nat) (oi : Bool)
    (fuel : Nat) (markers : List PTPRMarker) (hsrc : src < g.node_count)
    (h : PortToPortRouter.route_all g src oi fuel = some markers) :
    (markers.getD src default).constraints.cubes ≠ [] := by
  unfold PortToPortRouter.route_all at h
  refine route_all_loop_nonempty g oi src fuel _ markers ?_ ?_ ?_ h
  · unfold init_state
    simp [RoutingGraph.node_count]
  · unfold init_state
    intro fr hfr
    simp only [List.mem_singleton] at hfr
    subst hfr
    exact ⟨hsrc, fun p hp => by cases hp⟩
  · unfold init_state
    have hl : src < ((List.range g.nodes.length).map
        (fun _ => (default : PTPRMarker))).length := by
      simpa using hsrc
    rw [getD_set_self _ src _ _ hl]
    simp [DNFForm.new, DNFForm.add_cube]

theorem route_source_no_self (g : RoutingGraph) (opt : Bool) (fuel : Nat) (src : Nat)
    (m1 : List ((Nat × Nat) × PinPairRoutingInfo))
    (h : route_source g opt fuel src = some m1) :
    ∀ s info, ((s, s), info) ∉ m1 := by
  intro s info hmem
  unfold route_source at h
  split at h
  · cases h
    exact absurd hmem (List.not_mem_nil _)
  · obtain ⟨infos, hro, hmap⟩ := Option.map_eq_some'.mp h
    subst hmap
    obtain ⟨p, hp, hsome⟩ := List.mem_filterMap.mp hmem
    by_cases h1 : p.1 = src
    · rw [if_pos h1] at hsome
      exact absurd hsome (by simp)
    · rw [if_neg h1] at hsome
      split at hsome
      · injection hsome with h2
        have h3 : (src, p.1) = (s, s) := congrArg Prod.fst h2
        have h4 : src = s := congrArg Prod.fst h3
        have h5 : p.1 = s := congrArg Prod.snd h3
        exact h1 (h5.trans h4.symm)
      · exact absurd hsome (by simp)

theorem route_range_go_no_self (g : RoutingGraph) (opt : Bool) (fuel : Nat) :
    ∀ (l : List Nat) (m : List ((Nat × Nat) × PinPairRoutingInfo)),
      route_range_go g opt fuel l = some m → ∀ s info, ((s, s), info) ∉ m := by
  intro l
  induction l with
  | nil =>
    intro m h s info
    cases h
    simp
  | cons src rest ih =>
    intro m h s info
    unfold route_range_go at h
    obtain ⟨m1, h1, h2⟩ := Option.bind_eq_some.mp h
    obtain ⟨m2, h3, h4⟩ := Option.map_eq_some'.mp h2
    subst h4
    intro hmem
    rcases List.mem_append.mp hmem with hmem | hmem
    · exact route_source_no_self g opt fuel src m1 h1 s info hmem
    · exact ih m2 h3 s info hmem

/-- C9: the pin-pair map produced by `route_range` never contains a key of
the form (s, s) — the sink loop skips the index equal to the current source —
even though the source node's own marker always carries a non-empty
`requires` formula (it is seeded with the ⊤ cube and every update keeps it
non-empty). -/
theorem c9_no_self_pairs (g : RoutingGraph) (a b : Nat) (opt : Bool) (fuel : Nat)
    (m : List ((Nat × Nat) × PinPairRoutingInfo))
    (h : BruteRouter.route_range g a b opt fuel = some m) :
    (∀ s info, ((s, s), info) ∉ m)
    ∧ ∀ src markers, src < g.node_count →
        PortToPortRouter.route_all g src opt fuel = some markers →
        (markers.getD src default).constraints.cubes ≠ [] := by
  constructor
  · exact route_range_go_no_self g opt fuel _ m h
  · intro src markers hlt hra
    exact route_all_marker_nonempty g src opt fuel markers hlt hra

/-- C9 witness: a two-node graph with a single edge 0 → 1; the routed map
has the single key (0, 1) and indeed no (s, s) key. -/
theorem c9_no_self_pairs_witness :
    BruteRouter.route_range
        ⟨[⟨.BelPort 0, .Output⟩, ⟨.BelPort 0, .Output⟩], [false, true, false, false]⟩
        0 2 false 10
      = some [((0, 1), ⟨[⟨[]⟩], [⟨[.Var 0]⟩]⟩)]
    ∧ ∀ s info,
        ((s, s), info) ∉
          [((0, 1), (⟨[⟨[]⟩], [⟨[.Var 0]⟩]⟩ : PinPairRoutingInfo))] := by
  have h : BruteRouter.route_range
      ⟨[⟨.BelPort 0, .Output⟩, ⟨.BelPort 0, .Output⟩], [false, true, false, false]⟩
      0 2 false 10
      = some [((0, 1), ⟨[⟨[]⟩], [⟨[.Var 0]⟩]⟩)] := by decide
  exact ⟨h, (c9_no_self_pairs _ 0 2 false 10 _ h).1⟩

theorem split_scan_len (sz : Nat) :
    ∀ k cur left, (split_scan sz k cur left).length = k := by
  intro k
  induction k with
  | zero => intro cur left; rfl
  | succ k ih =>
    intro cur left
    unfold split_scan
    simp [ih]

theorem split_scan_mem (sz : Nat) :
    ∀ k cur left r, r ∈ split_scan sz k cur left →
      r.2 = r.1 + sz + 1 ∨ r.2 = r.1 + sz := by
  intro k
  induction k with
  | zero => intro cur left r h; exact absurd h (List.not_mem_nil r)
  | succ k ih =>
    intro cur left r h
    unfold split_scan at h
    rcases List.mem_cons.mp h with rfl | h
    · by_cases hl : left > 0
      · simp only [if_pos hl]
        left
        show cur + (sz + 1) = cur + sz + 1
        omega
      · simp only [if_neg hl]
        right
        trivial
    · exact ih _ _ r h

theorem split_scan_left0 (sz : Nat) :
    ∀ k cur r, r ∈ split_scan sz k cur 0 → r.2 = r.1 + sz := by
  intro k
  induction k with
  | zero => intro cur r h; exact absurd h (List.not_mem_nil r)
  | succ k ih =>
    intro cur r h
    have h0 : ¬ ((0 : Nat) > 0) := by omega
    unfold split_scan at h
    rw [if_neg h0, if_neg h0] at h
    rcases List.mem_cons.mp h with rfl | h
    · rfl
    · exact ih _ r h

theorem split_scan_pairwise (sz : Nat) :
    ∀ k cur left,
      (split_scan sz k cur left).Pairwise
        (fun r1 r2 => r2.2 - r2.1 ≤ r1.2 - r1.1) := by
  intro k
  induction k with
  | zero => intro cur left; exact List.Pairwise.nil
  | succ k ih =>
    intro cur left
    unfold split_scan
    by_cases hl : left > 0
    · rw [if_pos hl, if_pos hl]
      refine List.Pairwise.cons ?_ (ih _ _)
      intro r hr
      have hm := split_scan_mem sz k _ _ r hr
      simp only
      omega
    · have hl0 : left = 0 := by omega
      subst hl0
      have h0 : ¬ ((0 : Nat) > 0) := by omega
      rw [if_neg h0, if_neg h0]
      refine List.Pairwise.cons ?_ (ih _ _)
      intro r hr
      have hm := split_scan_left0 sz k _ r hr
      simp only
      omega

theorem range'_append_nat (s m n : Nat) :
    List.range' s m ++ List.range' (s + m) n = List.range' s (m + n) := by
  have h := List.range'_append s m n 1
  rw [Nat.one_mul] at h
  rw [h, Nat.add_comm n m]

theorem split_scan_join (sz : Nat) :
    ∀ k cur left,
      ((split_scan sz k cur left).map
        (fun r => List.range' r.1 (r.2 - r.1))).flatten
        = List.range' cur (sz * k + min left k) := by
  intro k
  induction k with
  | zero => intro cur left; simp [split_scan]
  | succ k ih =>
    intro cur left
    unfold split_scan
    by_cases hl : left > 0
    · rw [if_pos hl, if_pos hl]
      simp only [List.map_cons, List.flatten_cons, ih]
      have h1 : cur + (sz + 1) - cur = sz + 1 := by omega
      rw [h1, range'_append_nat cur (sz + 1) (sz * k + min (left - 1) k)]
      congr 1
      have h2 : sz * (k + 1) = sz * k + sz := by ring
      omega
    · have hl0 : left = 0 := by omega
      subst hl0
      have h0 : ¬ ((0 : Nat) > 0) := by omega
      rw [if_neg h0, if_neg h0]
      simp only [List.map_cons, List.flatten_cons, ih]
      have h1 : cur + sz - cur = sz := by omega
      rw [h1, range'_append_nat cur sz (sz * k + min 0 k)]
      congr 1
      have h2 : sz * (k + 1) = sz * k + sz := by ring
      omega

theorem join_filter_ranges :
    ∀ l : List (Nat × Nat),
      ((l.filter (fun r => decide (r.1 ≠ r.2))).map
        (fun r => List.range' r.1 (r.2 - r.1))).flatten
      = (l.map (fun r => List.range' r.1 (r.2 - r.1))).flatten := by
  intro l
  induction l with
  | nil => rfl
  | cons r rest ih =>
    rw [List.filter_cons]
    split
    · simp only [List.map_cons, List.flatten_cons, ih]
    · rename_i hcond
      have hr0 : r.2 - r.1 = 0 := by
        simp only [decide_not, Bool.not_eq_true', decide_eq_false_iff_not,
          Decidable.not_not] at hcond
        omega
      simp only [List.map_cons, List.flatten_cons, hr0, List.range'_zero,
        List.nil_append, ih]

theorem split_range_nicely_spec (len slices : Nat) (h : 1 ≤ slices) :
    ∃ l, split_range_nicely len slices = some l
      ∧ l.length ≤ slices
      ∧ (∀ r ∈ l, r.1 < r.2)
      ∧ ((l.map (fun r => List.range' r.1 (r.2 - r.1))).flatten = List.range len)
      ∧ (∀ r ∈ l, r.2 - r.1 = len / slices ∨ r.2 - r.1 = len / slices + 1)
      ∧ l.Pairwise (fun r1 r2 => r2.2 - r2.1 ≤ r1.2 - r1.1) := by
  have hs0 : ¬ slices = 0 := by omega
  unfold split_range_nicely
  rw [if_neg hs0]
  refine ⟨_, rfl, ?_, ?_, ?_, ?_, ?_⟩
  · calc ((split_scan (len / slices) slices 0
          (len - len / slices * slices)).filter (fun r => r.1 ≠ r.2)).length
        ≤ (split_scan (len / slices) slices 0
          (len - len / slices * slices)).length := List.length_filter_le _ _
      _ = slices := split_scan_len _ _ _ _
  · intro r hr
    have hmem := List.mem_filter.mp hr
    have hne : r.1 ≠ r.2 := by simpa using hmem.2
    rcases split_scan_mem _ _ _ _ r hmem.1 with hsz | hsz <;>
      · generalize hq : len / slices = q at hsz
        omega
  · rw [join_filter_ranges, split_scan_join]
    have hdm := Nat.div_add_mod len slices
    have hmlt : len % slices < slices := Nat.mod_lt len (by omega)
    have hcomm : len / slices * slices = slices * (len / slices) := Nat.mul_comm _ _
    have hleft : len - len / slices * slices = len % slices := by omega
    rw [hleft, Nat.min_eq_left (by omega), List.range_eq_range' len]
    congr 1
    omega
  · intro r hr
    have hmem := List.mem_filter.mp hr
    rcases split_scan_mem _ _ _ _ r hmem.1 with hsz | hsz
    · right
      generalize hq : len / slices = q at hsz ⊢
      omega
    · left
      generalize hq : len / slices = q at hsz ⊢
      omega
  · exact (split_scan_pairwise _ _ _ _).filter _

/-- C10: `split_range_nicely` splits `0 .. len` into at most `slices`
non-empty ranges whose in-order concatenation is exactly `0 .. len`, each of
size ⌊len/slices⌋ or ⌊len/slices⌋+1 with the larger ranges first; for
`slices = 0` the division panics (modelled as `none`), so
`route_all_multithreaded` with `thread_count = 0` aborts. -/
theorem c10_split_range_nicely (len slices : Nat) (h : 1 ≤ slices) :
    (∃ l, split_range_nicely len slices = some l
      ∧ l.length ≤ slices
      ∧ (∀ r ∈ l, r.1 < r.2)
      ∧ ((l.map (fun r => List.range' r.1 (r.2 - r.1))).flatten = List.range len)
      ∧ (∀ r ∈ l, r.2 - r.1 = len / slices ∨ r.2 - r.1 = len / slices + 1)
      ∧ l.Pairwise (fun r1 r2 => r2.2 - r2.1 ≤ r1.2 - r1.1))
    ∧ split_range_nicely len 0 = none
    ∧ ∀ (g : RoutingGraph) (opt : Bool) (fuel : Nat),
        route_all_multithreaded g 0 opt fuel = none := by
  refine ⟨split_range_nicely_spec len slices h, ?_, ?_⟩
  · unfold split_range_nicely
    rw [if_pos rfl]
  · intro g opt fuel
    unfold route_all_multithreaded
    unfold split_range_nicely
    rw [if_pos rfl]
    rfl

/-- C10 witness: the theorem applied to the concrete split of `0 .. 5` into
2 slices. -/
theorem c10_split_range_nicely_witness :
    (1 ≤ 2)
    ∧ ((∃ l, split_range_nicely 5 2 = some l
        ∧ l.length ≤ 2
        ∧ (∀ r ∈ l, r.1 < r.2)
        ∧ ((l.map (fun r => List.range' r.1 (r.2 - r.1))).flatten = List.range 5)
        ∧ (∀ r ∈ l, r.2 - r.1 = 5 / 2 ∨ r.2 - r.1 = 5 / 2 + 1)
        ∧ l.Pairwise (fun r1 r2 => r2.2 - r2.1 ≤ r1.2 - r1.1))
      ∧ split_range_nicely 5 0 = none
      ∧ ∀ (g : RoutingGraph) (opt : Bool) (fuel : Nat),
          route_all_multithreaded g 0 opt fuel = none) :=
  ⟨by decide, c10_split_range_nicely 5 2 (by decide)⟩

/-! ## C4: the multithreaded orchestrator computes the same map as the
single-threaded one. -/

theorem route_range_go_append (g : RoutingGraph) (opt : Bool) (fuel : Nat) :
    ∀ l1 l2 : List Nat,
      route_range_go g opt fuel (l1 ++ l2)
        = (route_range_go g opt fuel l1).bind (fun m1 =>
            (route_range_go g opt fuel l2).map (fun m2 => m1 ++ m2)) := by
  intro l1
  induction l1 with
  | nil =>
    intro l2
    simp only [List.nil_append]
    cases route_range_go g opt fuel l2 <;> rfl
  | cons s rest ih =>
    intro l2
    show (route_source g opt fuel s).bind (fun m =>
        (route_range_go g opt fuel (rest ++ l2)).map (fun ms => m ++ ms))
      = ((route_source g opt fuel s).bind (fun m =>
          (route_range_go g opt fuel rest).map (fun ms => m ++ ms))).bind
          (fun m1 => (route_range_go g opt fuel l2).map (fun m2 => m1 ++ m2))
    rw [ih l2]
    cases route_source g opt fuel s <;>
      cases route_range_go g opt fuel rest <;>
        cases route_range_go g opt fuel l2 <;>
          simp [List.append_assoc]

theorem fold_ranges_go (g : RoutingGraph) (opt : Bool) (fuel : Nat) :
    ∀ (l : List (Nat × Nat)) (acc : List ((Nat × Nat) × PinPairRoutingInfo)),
      l.foldlM
        (fun acc r =>
          (BruteRouter.route_range g r.1 r.2 opt fuel).map (acc ++ ·)) acc
      = (route_range_go g opt fuel
          ((l.map (fun r => List.range' r.1 (r.2 - r.1))).flatten)).map
          (fun m => acc ++ m) := by
  intro l
  induction l with
  | nil =>
    intro acc
    simp [List.foldlM, route_range_go]
  | cons r rest ih =>
    intro acc
    rw [List.foldlM_cons]
    simp only [List.map_cons, List.flatten_cons]
    rw [route_range_go_append]
    have hrr : BruteRouter.route_range g r.1 r.2 opt fuel
        = route_range_go g opt fuel (List.range' r.1 (r.2 - r.1)) := rfl
    rw [hrr]
    cases hp : route_range_go g opt fuel (List.range' r.1 (r.2 - r.1)) with
    | none => rfl
    | some m1 =>
      show rest.foldlM
          (fun acc r =>
            (BruteRouter.route_range g r.1 r.2 opt fuel).map (acc ++ ·))
          (acc ++ m1)
        = ((some m1).bind (fun m1 =>
            (route_range_go g opt fuel
              ((rest.map (fun r => List.range' r.1 (r.2 - r.1))).flatten)).map
              (fun m2 => m1 ++ m2))).map (fun m => acc ++ m)
      rw [ih (acc ++ m1)]
      cases route_range_go g opt fuel
          ((rest.map (fun r => List.range' r.1 (r.2 - r.1))).flatten) <;>
        simp [List.append_assoc]

/-- C4: for every routing graph, optimize flag, fuel budget and worker count
N ≥ 1, the pin-pair map produced by `route_all_multithreaded` equals the one
produced by the single-threaded `route_all`: the per-worker source ranges
concatenate, in worker order, to exactly the full `0 .. node_count` range,
so the merged per-worker maps list the same pairs in the same order. -/
theorem c4_multithreaded_equivalence (g : RoutingGraph) (opt : Bool)
    (fuel : Nat) (N : Nat) (hN : 1 ≤ N) :
    route_all_multithreaded g N opt fuel
      = BruteRouter.route_all g opt fuel := by
  obtain ⟨l, hsome, -, -, hjoin, -, -⟩ :=
    split_range_nicely_spec g.node_count N hN
  unfold route_all_multithreaded
  rw [hsome]
  show l.foldlM
      (fun acc r =>
        (BruteRouter.route_range g r.1 r.2 opt fuel).map (acc ++ ·)) []
    = BruteRouter.route_all g opt fuel
  rw [fold_ranges_go g opt fuel l []]
  rw [hjoin]
  show (route_range_go g opt fuel (List.range g.node_count)).map
      (fun m => [] ++ m)
    = route_range_go g opt fuel (List.range' 0 (g.node_count - 0))
  rw [List.range_eq_range', Nat.sub_zero]
  cases route_range_go g opt fuel (List.range' 0 g.node_count) <;> simp

/-- C4 witness: two workers on the two-node graph with the single edge
0 → 1 produce the same map as the single-threaded run. -/
theorem c4_multithreaded_equivalence_witness :
    (1 : Nat) ≤ 2
    ∧ route_all_multithreaded
        ⟨[⟨.BelPort 0, .Output⟩, ⟨.BelPort 0, .Output⟩],
          [false, true, false, false]⟩ 2 false 10
      = BruteRouter.route_all
        ⟨[⟨.BelPort 0, .Output⟩, ⟨.BelPort 0, .Output⟩],
          [false, true, false, false]⟩ false 10 :=
  ⟨by decide, c4_multithreaded_equivalence _ false 10 2 (by decide)⟩

end NISP
